import Mathlib

/-!
Verification of the hybrid-rocket internal-ballistics simulator
(`src/hybrid.py`).  The module-level constants of the Python source become
the fields of `Constants`; the module's four physics functions and the
time-marching loop of `simulate_hybrid_rocket` are embedded over `ℝ`
(Python `**` on floats becomes `Real.rpow`, `np.pi` becomes `Real.pi`).
The `while` loop is embedded as a fuel-indexed iteration `loopN`; the
top-level run supplies `⌈simulationDuration / deltaT⌉₊` units of fuel,
which is shown sufficient whenever `deltaT > 0`.  The Python locals
`chamber_pressure` and `thrust` are assigned only inside the loop body, so
they are modelled as `Option ℝ` (`none` = unbound local) and the final
`return` statement is modelled as `Except`, raising when the loop body
never ran.
-/

noncomputable section

/-- The module-level constants of `hybrid.py` (lines 5-16), gathered into a
configuration record so that runs with edited constants can be stated. -/
structure Constants where
  regressionRateCoefficient : ℝ
  oxidizerFluxExponent : ℝ
  fuelDensity : ℝ
  grainLength : ℝ
  initialPortRadius : ℝ
  maxPortRadius : ℝ
  oxidizerMassFlowRate : ℝ
  characteristicVelocity : ℝ
  throatArea : ℝ
  deltaT : ℝ
  simulationDuration : ℝ
  singularityThreshold : ℝ

/-- The constant values shipped in `hybrid.py` lines 5-16. -/
def defaultConstants : Constants where
  regressionRateCoefficient := 0.005
  oxidizerFluxExponent := 0.8
  fuelDensity := 970
  grainLength := 1.0
  initialPortRadius := 0.02
  maxPortRadius := 0.5
  oxidizerMassFlowRate := 0.5
  characteristicVelocity := 1500
  throatArea := 0.01
  deltaT := 0.01
  simulationDuration := 10.0
  singularityThreshold := 0.01

/-- Source function `calculate_regression_rate` (hybrid.py lines 19-26): a guard on
`port_radius < SINGULARITY_THRESHOLD` whose two branches are the same
expression `REGRESSION_RATE_COEFFICIENT * oxidizer_flux**OXIDIZER_FLUX_EXPONENT`. -/
def calculate_regression_rate (c : Constants) (port_radius oxidizer_flux : ℝ) : ℝ :=
  if port_radius < c.singularityThreshold then
    c.regressionRateCoefficient * oxidizer_flux ^ c.oxidizerFluxExponent
  else
    c.regressionRateCoefficient * oxidizer_flux ^ c.oxidizerFluxExponent

/-- Source function `calculate_fuel_flow_rate` (hybrid.py lines 28-33):
`FUEL_DENSITY * (2π·port_radius·GRAIN_LENGTH) * regression_rate`. -/
def calculate_fuel_flow_rate (c : Constants) (port_radius regression_rate : ℝ) : ℝ :=
  c.fuelDensity * (2 * Real.pi * port_radius * c.grainLength) * regression_rate

/-- Source function `calculate_chamber_pressure` (hybrid.py lines 35-39). -/
def calculate_chamber_pressure (c : Constants) (total_mass_flow_rate : ℝ) : ℝ :=
  total_mass_flow_rate * c.characteristicVelocity / c.throatArea

/-- Source function `calculate_thrust` (hybrid.py lines 41-45). -/
def calculate_thrust (c : Constants) (total_mass_flow_rate : ℝ) : ℝ :=
  total_mass_flow_rate * c.characteristicVelocity

/-- The mutable locals of `simulate_hybrid_rocket` (lines 52-58): the scalar
state, the four accumulator lists, and the loop-body locals
`chamber_pressure` / `thrust`, which are unbound (`none`) until the loop
body has executed at least once. -/
structure LoopState where
  time : ℝ
  port_radius : ℝ
  total_fuel_consumed : ℝ
  time_data : List ℝ
  port_radius_data : List ℝ
  chamber_pressure_data : List ℝ
  thrust_data : List ℝ
  chamber_pressure : Option ℝ
  thrust : Option ℝ

/-- The ephemeral per-step quantities computed by the loop body
(hybrid.py lines 61-78), in source order. -/
structure StepResult where
  oxidizer_flux : ℝ
  regression_rate : ℝ
  new_port_radius : ℝ
  fuel_flow_rate : ℝ
  total_mass_flow_rate : ℝ
  chamber_pressure : ℝ
  thrust : ℝ

/-- The loop body's straight-line computation (hybrid.py lines 61-78):
oxidizer flux from the pre-update radius, regression rate, forward-Euler
radius update, fuel flow rate from the updated radius, total mass flow,
chamber pressure and thrust. -/
def loopBody (c : Constants) (s : LoopState) : StepResult :=
  let oxidizer_flux := c.oxidizerMassFlowRate / (Real.pi * s.port_radius ^ 2)
  let regression_rate := calculate_regression_rate c s.port_radius oxidizer_flux
  let new_port_radius := s.port_radius + regression_rate * c.deltaT
  let fuel_flow_rate := calculate_fuel_flow_rate c new_port_radius regression_rate
  let total_mass_flow_rate := c.oxidizerMassFlowRate + fuel_flow_rate
  { oxidizer_flux := oxidizer_flux
    regression_rate := regression_rate
    new_port_radius := new_port_radius
    fuel_flow_rate := fuel_flow_rate
    total_mass_flow_rate := total_mass_flow_rate
    chamber_pressure := calculate_chamber_pressure c total_mass_flow_rate
    thrust := calculate_thrust c total_mass_flow_rate }

/-- One full loop iteration (hybrid.py lines 60-90): run the body, store the
data (lines 84-87, before the time increment, so the appended time is the
pre-increment one and the appended radius is the post-update one),
accumulate fuel consumed, and advance time. -/
def stepOnce (c : Constants) (s : LoopState) : LoopState :=
  let r := loopBody c s
  { time := s.time + c.deltaT
    port_radius := r.new_port_radius
    total_fuel_consumed := s.total_fuel_consumed + r.fuel_flow_rate * c.deltaT
    time_data := s.time_data ++ [s.time]
    port_radius_data := s.port_radius_data ++ [r.new_port_radius]
    chamber_pressure_data := s.chamber_pressure_data ++ [r.chamber_pressure]
    thrust_data := s.thrust_data ++ [r.thrust]
    chamber_pressure := some r.chamber_pressure
    thrust := some r.thrust }

/-- The loop guard of hybrid.py line 60:
`time < SIMULATION_DURATION and port_radius < MAX_PORT_RADIUS`. -/
def loopCond (c : Constants) (s : LoopState) : Prop :=
  s.time < c.simulationDuration ∧ s.port_radius < c.maxPortRadius

instance (c : Constants) (s : LoopState) : Decidable (loopCond c s) :=
  inferInstanceAs (Decidable (_ ∧ _))

/-- Fuel-indexed iteration of the `while` loop of hybrid.py lines 60-90:
the guard is re-checked before every iteration, and iteration also stops
when the fuel runs out. -/
def loopN (c : Constants) : ℕ → LoopState → LoopState
  | 0, s => s
  | fuel + 1, s => if loopCond c s then loopN c fuel (stepOnce c s) else s

/-- The initial values of the loop state (hybrid.py lines 52-58). -/
def initState (c : Constants) : LoopState where
  time := 0
  port_radius := c.initialPortRadius
  total_fuel_consumed := 0
  time_data := []
  port_radius_data := []
  chamber_pressure_data := []
  thrust_data := []
  chamber_pressure := none
  thrust := none

/-- Fuel supplied to `loopN`; shown sufficient (the guard is already false
when it runs out) whenever `deltaT > 0`. -/
def simFuel (c : Constants) : ℕ :=
  ⌈c.simulationDuration / c.deltaT⌉₊

/-- The state at the end of the `while` loop of `simulate_hybrid_rocket`. -/
def runLoop (c : Constants) : LoopState :=
  loopN c (simFuel c) (initState c)

/-- Source function `simulate_hybrid_rocket` (hybrid.py lines 47-93): run the loop and
evaluate the `return` tuple of line 93.  Reading the loop-body locals
`chamber_pressure` / `thrust` when the loop body never executed raises
`UnboundLocalError` in Python, modelled as `Except.error`. -/
def simulate_hybrid_rocket (c : Constants) :
    Except String (List ℝ × List ℝ × List ℝ × List ℝ × ℝ × ℝ × ℝ × ℝ) :=
  let s := runLoop c
  match s.chamber_pressure, s.thrust with
  | some cp, some th =>
      Except.ok (s.time_data, s.port_radius_data, s.chamber_pressure_data,
        s.thrust_data, s.total_fuel_consumed, s.port_radius, cp, th)
  | _, _ => Except.error ("UnboundLocalError: chamber_pressure")

/-- Modelled from the spec: the unconditional regression-rate formula
`coefficient * oxidizerFlux^exponent`, with no singularity guard, used to
state that the guarded source function refines it. -/
def regression_rate_unconditional (c : Constants) (oxidizer_flux : ℝ) : ℝ :=
  c.regressionRateCoefficient * oxidizer_flux ^ c.oxidizerFluxExponent

/-- The run with the shipped constants except `SIMULATION_DURATION = 0`:
a degenerate configuration whose loop performs zero iterations. -/
def cDeg : Constants :=
  { defaultConstants with simulationDuration := 0 }

lemma loopN_zero (c : Constants) (s : LoopState) : loopN c 0 s = s := rfl

lemma loopN_succ (c : Constants) (fuel : ℕ) (s : LoopState) :
    loopN c (fuel + 1) s = if loopCond c s then loopN c fuel (stepOnce c s) else s := rfl

lemma loopN_of_not_cond (c : Constants) (fuel : ℕ) (s : LoopState)
    (h : ¬ loopCond c s) : loopN c fuel s = s := by
  cases fuel with
  | zero => rfl
  | succ n => rw [loopN_succ, if_neg h]

/-- C1 -- "If `maxPortRadius <= initialPortRadius` or `simulationDuration <= 0`,
the run performs zero loop iterations and returns an empty series plus
initial-state scalars, as a normal result and not an error."  What the code
actually does: the loop indeed runs zero iterations, the series are empty and
the port radius still equals `initialPortRadius`, but the `return` statement
then reads the loop-body locals `chamber_pressure` and `thrust`, which were
never assigned, so the call raises `UnboundLocalError` instead of returning. -/
theorem degenerate_config_zero_iterations_raises (c : Constants)
    (h : c.maxPortRadius ≤ c.initialPortRadius ∨ c.simulationDuration ≤ 0) :
    runLoop c = initState c ∧
    (runLoop c).time_data = [] ∧
    (runLoop c).port_radius = c.initialPortRadius ∧
    simulate_hybrid_rocket c = Except.error ("UnboundLocalError: chamber_pressure") := by
  have hcond : ¬ loopCond c (initState c) := by
    rcases h with h | h
    · exact fun hc => absurd hc.2 (not_lt.mpr h)
    · exact fun hc => absurd hc.1 (not_lt.mpr (by simpa [initState] using h))
  have hrun : runLoop c = initState c := loopN_of_not_cond c _ _ hcond
  refine ⟨hrun, ?_, ?_, ?_⟩
  · rw [hrun]; rfl
  · rw [hrun]; rfl
  · simp only [simulate_hybrid_rocket, hrun]; rfl

/-- Witness for C1 at the shipped constants with `SIMULATION_DURATION = 0`. -/
theorem degenerate_config_zero_iterations_raises_witness :
    (cDeg.maxPortRadius ≤ cDeg.initialPortRadius ∨ cDeg.simulationDuration ≤ 0) ∧
    (runLoop cDeg = initState cDeg ∧
      (runLoop cDeg).time_data = [] ∧
      (runLoop cDeg).port_radius = cDeg.initialPortRadius ∧
      simulate_hybrid_rocket cDeg = Except.error ("UnboundLocalError: chamber_pressure")) := by
  have h : cDeg.maxPortRadius ≤ cDeg.initialPortRadius ∨ cDeg.simulationDuration ≤ 0 :=
    Or.inr (by norm_num [cDeg, defaultConstants])
  exact ⟨h, degenerate_config_zero_iterations_raises cDeg h⟩

/-- C2 -- in every simulation step, the regression rate is computed at the
pre-update port radius, and the fuel flow rate is computed from the updated
(post forward-Euler) radius together with that regression rate:
`fuelFlowRate = 2π (r + rdot·dt) · grainLength · fuelDensity · rdot`. -/
theorem fuel_flow_uses_updated_radius (c : Constants) (s : LoopState) :
    (loopBody c s).regression_rate =
      calculate_regression_rate c s.port_radius (loopBody c s).oxidizer_flux ∧
    (loopBody c s).new_port_radius =
      s.port_radius + (loopBody c s).regression_rate * c.deltaT ∧
    (loopBody c s).fuel_flow_rate =
      2 * Real.pi * (s.port_radius + (loopBody c s).regression_rate * c.deltaT) *
        c.grainLength * c.fuelDensity * (loopBody c s).regression_rate := by
  refine ⟨rfl, rfl, ?_⟩
  simp only [loopBody, calculate_fuel_flow_rate]
  ring

/-- C3 -- the singularity guard in `calculate_regression_rate` is a no-op:
for every port radius and every non-negative oxidizer flux, the guarded
source function agrees with the unconditional formula
`coefficient * flux ^ exponent`. -/
theorem regression_rate_guard_noop (c : Constants) (port_radius oxidizer_flux : ℝ)
    (hflux : 0 ≤ oxidizer_flux) :
    calculate_regression_rate c port_radius oxidizer_flux =
      regression_rate_unconditional c oxidizer_flux := by
  unfold calculate_regression_rate regression_rate_unconditional
  split <;> rfl

/-- Witness for C3 at the shipped constants, with a port radius below the
singularity threshold and flux 2. -/
theorem regression_rate_guard_noop_witness :
    (0:ℝ) ≤ 2 ∧
    calculate_regression_rate defaultConstants 0.005 2 =
      regression_rate_unconditional defaultConstants 2 :=
  ⟨by norm_num, regression_rate_guard_noop defaultConstants 0.005 2 (by norm_num)⟩

lemma loopN_aligned (c : Constants) (fuel : ℕ) : ∀ s : LoopState,
    s.port_radius_data.length = s.time_data.length →
    s.chamber_pressure_data.length = s.time_data.length →
    s.thrust_data.length = s.time_data.length →
    (loopN c fuel s).port_radius_data.length = (loopN c fuel s).time_data.length ∧
    (loopN c fuel s).chamber_pressure_data.length = (loopN c fuel s).time_data.length ∧
    (loopN c fuel s).thrust_data.length = (loopN c fuel s).time_data.length := by
  induction fuel with
  | zero => exact fun s h1 h2 h3 => ⟨h1, h2, h3⟩
  | succ n ih =>
    intro s h1 h2 h3
    rw [loopN_succ]
    split
    · exact ih (stepOnce c s) (by simp [stepOnce, h1]) (by simp [stepOnce, h2])
        (by simp [stepOnce, h3])
    · exact ⟨h1, h2, h3⟩

/-- C8 -- all four output series of any run (lines 84-87 append exactly one
entry to each per iteration) share identical length, so index `i` in every
series describes the same instant. -/
theorem series_lengths_aligned (c : Constants) :
    (runLoop c).port_radius_data.length = (runLoop c).time_data.length ∧
    (runLoop c).chamber_pressure_data.length = (runLoop c).time_data.length ∧
    (runLoop c).thrust_data.length = (runLoop c).time_data.length :=
  loopN_aligned c (simFuel c) (initState c) rfl rfl rfl

/-- The arithmetic progression `0, dt, 2·dt, …` of length `n`, the shape the
time series is proved to take. -/
def timeRamp (c : Constants) (n : ℕ) : List ℝ :=
  (List.range n).map (fun k : ℕ => (k : ℝ) * c.deltaT)

lemma loopN_time_arith (c : Constants) (fuel : ℕ) : ∀ s : LoopState,
    s.time = s.time_data.length * c.deltaT →
    s.time_data = timeRamp c s.time_data.length →
    (loopN c fuel s).time = (loopN c fuel s).time_data.length * c.deltaT ∧
    (loopN c fuel s).time_data = timeRamp c (loopN c fuel s).time_data.length := by
  induction fuel with
  | zero => exact fun s h1 h2 => ⟨h1, h2⟩
  | succ n ih =>
    intro s h1 h2
    rw [loopN_succ]
    split
    · refine ih (stepOnce c s) ?_ ?_
      · simp only [stepOnce, List.length_append, List.length_cons, List.length_nil]
        push_cast
        rw [h1]; ring
      · simp only [stepOnce, List.length_append, List.length_cons, List.length_nil]
        unfold timeRamp
        rw [List.range_succ, List.map_append]
        refine congrArg₂ _ h2 ?_
        simp [h1]
    · exact ⟨h1, h2⟩

/-- C7 -- the recorded time series is `timeSeries[i] = i * timeStep` for
every index, and (given `timeStep > 0`) strictly increasing with constant
spacing `timeStep` between adjacent entries. -/
theorem time_series_arithmetic (c : Constants) (hdt : 0 < c.deltaT) :
    (∀ (i : ℕ) (h : i < (runLoop c).time_data.length),
      (runLoop c).time_data.get ⟨i, h⟩ = (i : ℝ) * c.deltaT) ∧
    (∀ (i : ℕ) (h : i + 1 < (runLoop c).time_data.length),
      (runLoop c).time_data.get ⟨i, by omega⟩ + c.deltaT =
        (runLoop c).time_data.get ⟨i + 1, h⟩ ∧
      (runLoop c).time_data.get ⟨i, by omega⟩ <
        (runLoop c).time_data.get ⟨i + 1, h⟩) := by
  obtain ⟨-, hdata⟩ :=
    loopN_time_arith c (simFuel c) (initState c) (by simp [initState]) rfl
  have hdata' : (runLoop c).time_data = timeRamp c ((runLoop c).time_data.length) := hdata
  have hget : ∀ (i : ℕ) (h : i < (runLoop c).time_data.length),
      (runLoop c).time_data.get ⟨i, h⟩ = (i : ℝ) * c.deltaT := by
    intro i h
    rw [List.get_of_eq hdata']
    simp [timeRamp]
  refine ⟨hget, fun i h => ?_⟩
  rw [hget i (by omega), hget (i + 1) h]
  constructor
  · push_cast; ring
  · have h1 : (i : ℝ) < (i : ℝ) + 1 := by norm_num
    push_cast
    nlinarith

lemma regression_rate_nonneg (c : Constants)
    (hc : 0 ≤ c.regressionRateCoefficient) (r : ℝ) {flux : ℝ} (hflux : 0 ≤ flux) :
    0 ≤ calculate_regression_rate c r flux := by
  unfold calculate_regression_rate
  split <;> exact mul_nonneg hc (Real.rpow_nonneg hflux _)

lemma oxidizer_flux_nonneg (c : Constants) (hox : 0 ≤ c.oxidizerMassFlowRate) (r : ℝ) :
    0 ≤ c.oxidizerMassFlowRate / (Real.pi * r ^ 2) :=
  div_nonneg hox (by positivity)

lemma port_radius_step_le (c : Constants)
    (hc : 0 ≤ c.regressionRateCoefficient) (hox : 0 ≤ c.oxidizerMassFlowRate)
    (hdt : 0 ≤ c.deltaT) (s : LoopState) :
    s.port_radius ≤ (stepOnce c s).port_radius := by
  have hrdot : 0 ≤ (loopBody c s).regression_rate :=
    regression_rate_nonneg c hc _ (oxidizer_flux_nonneg c hox _)
  have : (stepOnce c s).port_radius = s.port_radius + (loopBody c s).regression_rate * c.deltaT :=
    rfl
  rw [this]
  nlinarith

lemma loopN_pr_mono (c : Constants)
    (hc : 0 ≤ c.regressionRateCoefficient) (hox : 0 ≤ c.oxidizerMassFlowRate)
    (hdt : 0 ≤ c.deltaT) (fuel : ℕ) : ∀ s : LoopState,
    List.Chain' (fun a b => a ≤ b) s.port_radius_data →
    (∀ x ∈ s.port_radius_data, x ≤ s.port_radius) →
    List.Chain' (fun a b => a ≤ b) (loopN c fuel s).port_radius_data ∧
    ∀ x ∈ (loopN c fuel s).port_radius_data, x ≤ (loopN c fuel s).port_radius := by
  induction fuel with
  | zero => exact fun s h1 h2 => ⟨h1, h2⟩
  | succ n ih =>
    intro s h1 h2
    rw [loopN_succ]
    split
    · have hstep := port_radius_step_le c hc hox hdt s
      refine ih (stepOnce c s) ?_ ?_
      · show List.Chain' _ (s.port_radius_data ++ [(loopBody c s).new_port_radius])
        rw [List.chain'_append]
        refine ⟨h1, List.chain'_singleton _, ?_⟩
        intro x hx y hy
        simp only [List.head?_cons, Option.mem_def, Option.some.injEq] at hy
        subst hy
        exact le_trans (h2 x (List.mem_of_getLast?_eq_some hx)) hstep
      · intro x hx
        rcases List.mem_append.mp hx with hx | hx
        · exact le_trans (h2 x hx) hstep
        · simp only [List.mem_singleton] at hx
          subst hx
          exact le_refl _
    · exact ⟨h1, h2⟩

/-- C5 -- the recorded port-radius series is non-decreasing at every pair of
adjacent indices: the regression rate is non-negative for non-negative flux
and the radius is only ever incremented. -/
theorem port_radius_series_monotone (c : Constants)
    (hc : 0 ≤ c.regressionRateCoefficient) (hox : 0 ≤ c.oxidizerMassFlowRate)
    (hdt : 0 ≤ c.deltaT) :
    ∀ (i : ℕ) (h : i + 1 < (runLoop c).port_radius_data.length),
      (runLoop c).port_radius_data.get ⟨i, by omega⟩ ≤
        (runLoop c).port_radius_data.get ⟨i + 1, h⟩ := by
  obtain ⟨hchain, -⟩ :=
    loopN_pr_mono c hc hox hdt (simFuel c) (initState c) (by simp [initState]) (by simp [initState])
  have hr : List.Chain' (fun a b => a ≤ b) (runLoop c).port_radius_data := hchain
  intro i h
  exact List.chain'_iff_get.mp hr i (by omega)

lemma ceil_sub_one_succ_le {x : ℝ} (hx : 0 < x) : ⌈x - 1⌉₊ + 1 ≤ ⌈x⌉₊ := by
  have h1 : 1 ≤ ⌈x⌉₊ := Nat.ceil_pos.mpr hx
  have h2 : ⌈x - 1⌉₊ ≤ ⌈x⌉₊ - 1 := by
    apply Nat.ceil_le.mpr
    rw [Nat.cast_sub h1]
    have h3 := Nat.le_ceil x
    push_cast
    linarith
  omega

lemma loopN_length_le (c : Constants) (hdt : 0 < c.deltaT) (fuel : ℕ) : ∀ s : LoopState,
    (loopN c fuel s).time_data.length ≤
      s.time_data.length + ⌈(c.simulationDuration - s.time) / c.deltaT⌉₊ := by
  induction fuel with
  | zero => intro s; simp [loopN_zero]
  | succ n ih =>
    intro s
    rw [loopN_succ]
    split
    · rename_i hcond
      have ht : s.time < c.simulationDuration := hcond.1
      have key : 1 + ⌈(c.simulationDuration - (s.time + c.deltaT)) / c.deltaT⌉₊ ≤
          ⌈(c.simulationDuration - s.time) / c.deltaT⌉₊ := by
        have hx : 0 < (c.simulationDuration - s.time) / c.deltaT :=
          div_pos (by linarith) hdt
        rw [show c.simulationDuration - (s.time + c.deltaT) =
            c.simulationDuration - s.time - c.deltaT by ring, sub_div, div_self hdt.ne']
        have := ceil_sub_one_succ_le hx
        omega
      calc (loopN c n (stepOnce c s)).time_data.length
          ≤ (stepOnce c s).time_data.length +
              ⌈(c.simulationDuration - (stepOnce c s).time) / c.deltaT⌉₊ := ih _
        _ = s.time_data.length + 1 +
              ⌈(c.simulationDuration - (s.time + c.deltaT)) / c.deltaT⌉₊ := by
            simp [stepOnce]
        _ ≤ s.time_data.length + ⌈(c.simulationDuration - s.time) / c.deltaT⌉₊ := by
            omega
    · simp

/-- C6 -- however long the `while` loop is allowed to iterate, it completes at
most `⌈simulationDuration / timeStep⌉` steps, so the run terminates within
that bound; in particular the recorded series of the run obey it. -/
theorem loop_steps_bounded (c : Constants) (hdt : 0 < c.deltaT) :
    (∀ fuel : ℕ, (loopN c fuel (initState c)).time_data.length ≤
      ⌈c.simulationDuration / c.deltaT⌉₊) ∧
    (runLoop c).time_data.length ≤ ⌈c.simulationDuration / c.deltaT⌉₊ := by
  have h : ∀ fuel : ℕ, (loopN c fuel (initState c)).time_data.length ≤
      ⌈c.simulationDuration / c.deltaT⌉₊ := by
    intro fuel
    have h0 := loopN_length_le c hdt fuel (initState c)
    simpa [initState] using h0
  exact ⟨h, h (simFuel c)⟩

/-- Witness for C6 at a concrete configuration (shipped constants have
`DELTA_T = 0.01 > 0`). -/
theorem loop_steps_bounded_witness :
    0 < defaultConstants.deltaT ∧
    ((∀ fuel : ℕ, (loopN defaultConstants fuel (initState defaultConstants)).time_data.length ≤
        ⌈defaultConstants.simulationDuration / defaultConstants.deltaT⌉₊) ∧
      (runLoop defaultConstants).time_data.length ≤
        ⌈defaultConstants.simulationDuration / defaultConstants.deltaT⌉₊) :=
  ⟨by norm_num [defaultConstants],
    loop_steps_bounded defaultConstants (by norm_num [defaultConstants])⟩

lemma loopN_pr_below_max (c : Constants) (fuel : ℕ) : ∀ s : LoopState,
    (∀ x ∈ s.port_radius_data.dropLast, x < c.maxPortRadius) →
    (s.port_radius_data = [] ∨ s.port_radius_data.getLast? = some s.port_radius) →
    (∀ x ∈ (loopN c fuel s).port_radius_data.dropLast, x < c.maxPortRadius) ∧
    ((loopN c fuel s).port_radius_data = [] ∨
      (loopN c fuel s).port_radius_data.getLast? = some (loopN c fuel s).port_radius) := by
  induction fuel with
  | zero => exact fun s h1 h2 => ⟨h1, h2⟩
  | succ n ih =>
    intro s h1 h2
    rw [loopN_succ]
    split
    · rename_i hcond
      refine ih (stepOnce c s) ?_ ?_
      · show ∀ x ∈ (s.port_radius_data ++ [(loopBody c s).new_port_radius]).dropLast,
          x < c.maxPortRadius
        rw [List.dropLast_concat]
        intro x hx
        rcases h2 with h2 | h2
        · rw [h2] at hx
          exact absurd hx (List.not_mem_nil x)
        · have hne : s.port_radius_data ≠ [] := by
            intro hnil
            rw [hnil] at h2
            exact Option.noConfusion h2
          have hsplit := List.dropLast_concat_getLast hne
          rcases List.mem_append.mp (hsplit ▸ hx) with hx' | hx'
          · exact h1 x hx'
          · have hxlast : x = s.port_radius_data.getLast hne := by
              simpa using hx'
            have hlast : s.port_radius_data.getLast hne = s.port_radius := by
              have := List.getLast?_eq_getLast (l := s.port_radius_data) hne
              rw [this] at h2
              exact Option.some.inj h2
            rw [hxlast, hlast]
            exact hcond.2
      · right
        show (s.port_radius_data ++ [(loopBody c s).new_port_radius]).getLast? =
          some (stepOnce c s).port_radius
        rw [List.getLast?_concat]
        rfl
    · exact ⟨h1, h2⟩

/-- A concrete configuration whose two-step run evaluates in closed form
(zero regression-rate coefficient, so the port radius stays at 1). -/
def cW2 : Constants where
  regressionRateCoefficient := 0
  oxidizerFluxExponent := 0.8
  fuelDensity := 1
  grainLength := 1
  initialPortRadius := 1
  maxPortRadius := 2
  oxidizerMassFlowRate := 1
  characteristicVelocity := 2
  throatArea := 3
  deltaT := 1
  simulationDuration := 2
  singularityThreshold := 1

lemma simFuel_cW2 : simFuel cW2 = 2 := by
  unfold simFuel cW2
  norm_num

lemma stepOnce_cW2_0 : stepOnce cW2 (initState cW2) =
    ⟨1, 1, 0, [0], [1], [2/3], [2], some (2/3), some 2⟩ := by
  unfold stepOnce loopBody calculate_regression_rate calculate_fuel_flow_rate
    calculate_chamber_pressure calculate_thrust initState cW2
  norm_num

lemma stepOnce_cW2_1 :
    stepOnce cW2 (⟨1, 1, 0, [0], [1], [2/3], [2], some (2/3), some 2⟩ : LoopState) =
    ⟨2, 1, 0, [0, 1], [1, 1], [2/3, 2/3], [2, 2], some (2/3), some 2⟩ := by
  unfold stepOnce loopBody calculate_regression_rate calculate_fuel_flow_rate
    calculate_chamber_pressure calculate_thrust cW2
  norm_num

lemma runLoop_cW2 : runLoop cW2 =
    ⟨2, 1, 0, [0, 1], [1, 1], [2/3, 2/3], [2, 2], some (2/3), some 2⟩ := by
  have h0 : loopCond cW2 (initState cW2) := by
    constructor <;> norm_num [initState, cW2]
  have h1 : loopCond cW2 (⟨1, 1, 0, [0], [1], [2/3], [2], some (2/3), some 2⟩ : LoopState) := by
    constructor <;> norm_num [cW2]
  rw [runLoop, simFuel_cW2, show (2:ℕ) = 1 + 1 from rfl, loopN_succ, if_pos h0,
    stepOnce_cW2_0, loopN_succ, if_pos h1, stepOnce_cW2_1, loopN_zero]

lemma fuel_flow_rate_nonneg (c : Constants) (hρ : 0 ≤ c.fuelDensity)
    (hL : 0 ≤ c.grainLength) {r rdot : ℝ} (hr : 0 ≤ r) (hrdot : 0 ≤ rdot) :
    0 ≤ calculate_fuel_flow_rate c r rdot := by
  unfold calculate_fuel_flow_rate
  exact mul_nonneg
    (mul_nonneg hρ (mul_nonneg (mul_nonneg (by positivity) hr) hL)) hrdot

lemma loopN_ratio_inv (c : Constants)
    (hc : 0 ≤ c.regressionRateCoefficient) (hox : 0 < c.oxidizerMassFlowRate)
    (hcs : 0 < c.characteristicVelocity) (hA : 0 < c.throatArea)
    (hρ : 0 ≤ c.fuelDensity) (hL : 0 ≤ c.grainLength) (hdt : 0 ≤ c.deltaT)
    (fuel : ℕ) : ∀ s : LoopState,
    0 ≤ s.port_radius →
    s.thrust_data.length = s.chamber_pressure_data.length →
    (∀ p ∈ s.thrust_data.zip s.chamber_pressure_data, p.1 / p.2 = c.throatArea) →
    0 ≤ (loopN c fuel s).port_radius ∧
    (loopN c fuel s).thrust_data.length = (loopN c fuel s).chamber_pressure_data.length ∧
    (∀ p ∈ (loopN c fuel s).thrust_data.zip (loopN c fuel s).chamber_pressure_data,
      p.1 / p.2 = c.throatArea) := by
  induction fuel with
  | zero => exact fun s h1 h2 h3 => ⟨h1, h2, h3⟩
  | succ n ih =>
    intro s h1 h2 h3
    rw [loopN_succ]
    split
    · have hrdot : 0 ≤ (loopBody c s).regression_rate :=
        regression_rate_nonneg c hc _ (oxidizer_flux_nonneg c hox.le _)
      have hr' : 0 ≤ (stepOnce c s).port_radius := by
        have heq : (stepOnce c s).port_radius =
            s.port_radius + (loopBody c s).regression_rate * c.deltaT := rfl
        rw [heq]
        exact add_nonneg h1 (mul_nonneg hrdot hdt)
      have hfuel : 0 ≤ (loopBody c s).fuel_flow_rate :=
        fuel_flow_rate_nonneg c hρ hL hr' hrdot
      have hm : 0 < (loopBody c s).total_mass_flow_rate := by
        have heq : (loopBody c s).total_mass_flow_rate =
            c.oxidizerMassFlowRate + (loopBody c s).fuel_flow_rate := rfl
        rw [heq]
        linarith
      refine ih (stepOnce c s) hr' (by simp [stepOnce, h2]) ?_
      intro p hp
      have hzip : (stepOnce c s).thrust_data.zip (stepOnce c s).chamber_pressure_data =
          s.thrust_data.zip s.chamber_pressure_data ++
            [((loopBody c s).thrust, (loopBody c s).chamber_pressure)] := by
        show (s.thrust_data ++ [(loopBody c s).thrust]).zip
            (s.chamber_pressure_data ++ [(loopBody c s).chamber_pressure]) = _
        rw [List.zip_append h2]
        rfl
      rw [hzip] at hp
      rcases List.mem_append.mp hp with hp | hp
      · exact h3 p hp
      · simp only [List.mem_singleton] at hp
        subst hp
        show (loopBody c s).thrust / (loopBody c s).chamber_pressure = c.throatArea
        have ht : (loopBody c s).thrust =
            (loopBody c s).total_mass_flow_rate * c.characteristicVelocity := rfl
        have hcp : (loopBody c s).chamber_pressure =
            (loopBody c s).total_mass_flow_rate * c.characteristicVelocity / c.throatArea :=
          rfl
        have hx : (loopBody c s).total_mass_flow_rate * c.characteristicVelocity ≠ 0 :=
          (mul_pos hm hcs).ne'
        have hA' : c.throatArea ≠ 0 := hA.ne'
        rw [ht, hcp]
        field_simp
    · exact ⟨h1, h2, h3⟩

/-- C4 -- for every recorded index of a run with valid constants,
`thrustSeries[i] / chamberPressureSeries[i] = throatArea`: chamber pressure
and thrust are evaluated on the same total mass flow rate. -/
theorem thrust_div_pressure_eq_throat_area (c : Constants)
    (hc : 0 ≤ c.regressionRateCoefficient) (hox : 0 < c.oxidizerMassFlowRate)
    (hcs : 0 < c.characteristicVelocity) (hA : 0 < c.throatArea)
    (hρ : 0 ≤ c.fuelDensity) (hL : 0 ≤ c.grainLength)
    (hr0 : 0 ≤ c.initialPortRadius) (hdt : 0 ≤ c.deltaT) :
    ∀ (i : ℕ) (h1 : i < (runLoop c).thrust_data.length)
      (h2 : i < (runLoop c).chamber_pressure_data.length),
      (runLoop c).thrust_data.get ⟨i, h1⟩ /
        (runLoop c).chamber_pressure_data.get ⟨i, h2⟩ = c.throatArea := by
  obtain ⟨-, hlen, hzip⟩ :=
    loopN_ratio_inv c hc hox hcs hA hρ hL hdt (simFuel c) (initState c) hr0 rfl
      (by simp [initState])
  have hzip' : ∀ p ∈ (runLoop c).thrust_data.zip (runLoop c).chamber_pressure_data,
      p.1 / p.2 = c.throatArea := hzip
  intro i h1 h2
  rw [List.get_eq_getElem, List.get_eq_getElem]
  have hi : i < ((runLoop c).thrust_data.zip (runLoop c).chamber_pressure_data).length := by
    rw [List.length_zip]
    omega
  have hmem := hzip' _ (List.getElem_mem hi)
  rw [List.getElem_zip] at hmem
  simpa using hmem

/-- Witness for C4 at `cW2`, index 0: thrust 2 over chamber pressure 2/3 is
the throat area 3. -/
theorem thrust_div_pressure_eq_throat_area_witness :
    ((0:ℝ) ≤ cW2.regressionRateCoefficient ∧ 0 < cW2.oxidizerMassFlowRate ∧
      0 < cW2.characteristicVelocity ∧ 0 < cW2.throatArea ∧
      0 ≤ cW2.fuelDensity ∧ 0 ≤ cW2.grainLength ∧
      0 ≤ cW2.initialPortRadius ∧ 0 ≤ cW2.deltaT) ∧
    ∃ (h1 : 0 < (runLoop cW2).thrust_data.length)
      (h2 : 0 < (runLoop cW2).chamber_pressure_data.length),
      (runLoop cW2).thrust_data.get ⟨0, h1⟩ /
        (runLoop cW2).chamber_pressure_data.get ⟨0, h2⟩ = cW2.throatArea := by
  have h1 : 0 < (runLoop cW2).thrust_data.length := by
    rw [runLoop_cW2]
    simp
  have h2 : 0 < (runLoop cW2).chamber_pressure_data.length := by
    rw [runLoop_cW2]
    simp
  refine ⟨by norm_num [cW2], h1, h2, ?_⟩
  exact thrust_div_pressure_eq_throat_area cW2 (by norm_num [cW2]) (by norm_num [cW2])
    (by norm_num [cW2]) (by norm_num [cW2]) (by norm_num [cW2]) (by norm_num [cW2])
    (by norm_num [cW2]) (by norm_num [cW2]) 0 h1 h2

/-- Witness for C5 at `cW2`, adjacent indices 0 and 1. -/
theorem port_radius_series_monotone_witness :
    ((0:ℝ) ≤ cW2.regressionRateCoefficient ∧ 0 ≤ cW2.oxidizerMassFlowRate ∧
      0 ≤ cW2.deltaT) ∧
    ∃ h : 0 + 1 < (runLoop cW2).port_radius_data.length,
      (runLoop cW2).port_radius_data.get ⟨0, by omega⟩ ≤
        (runLoop cW2).port_radius_data.get ⟨0 + 1, h⟩ := by
  have h : 0 + 1 < (runLoop cW2).port_radius_data.length := by
    rw [runLoop_cW2]
    simp
  exact ⟨by norm_num [cW2], h,
    port_radius_series_monotone cW2 (by norm_num [cW2]) (by norm_num [cW2])
      (by norm_num [cW2]) 0 h⟩

/-- Witness for C7 at `cW2` (`deltaT = 1 > 0`). -/
theorem time_series_arithmetic_witness :
    0 < cW2.deltaT ∧
    ((∀ (i : ℕ) (h : i < (runLoop cW2).time_data.length),
        (runLoop cW2).time_data.get ⟨i, h⟩ = (i : ℝ) * cW2.deltaT) ∧
      (∀ (i : ℕ) (h : i + 1 < (runLoop cW2).time_data.length),
        (runLoop cW2).time_data.get ⟨i, by omega⟩ + cW2.deltaT =
          (runLoop cW2).time_data.get ⟨i + 1, h⟩ ∧
        (runLoop cW2).time_data.get ⟨i, by omega⟩ <
          (runLoop cW2).time_data.get ⟨i + 1, h⟩)) :=
  ⟨by norm_num [cW2], time_series_arithmetic cW2 (by norm_num [cW2])⟩

/-- A configuration whose first step overshoots `maxPortRadius`: the guard
checks the pre-update radius 1 < 3/2, but the appended post-update radius
is 2 ≥ 3/2. -/
def cOver : Constants where
  regressionRateCoefficient := Real.pi
  oxidizerFluxExponent := 1
  fuelDensity := 1
  grainLength := 1
  initialPortRadius := 1
  maxPortRadius := 3 / 2
  oxidizerMassFlowRate := 1
  characteristicVelocity := 1
  throatArea := 1
  deltaT := 1
  simulationDuration := 5
  singularityThreshold := 1

lemma simFuel_cOver : simFuel cOver = 5 := by
  unfold simFuel cOver
  norm_num

lemma stepOnce_cOver_0 : stepOnce cOver (initState cOver) =
    ⟨1, 2, 4 * Real.pi, [0], [2], [1 + 4 * Real.pi], [1 + 4 * Real.pi],
      some (1 + 4 * Real.pi), some (1 + 4 * Real.pi)⟩ := by
  have hπ : Real.pi ≠ 0 := Real.pi_ne_zero
  unfold stepOnce loopBody calculate_regression_rate calculate_fuel_flow_rate
    calculate_chamber_pressure calculate_thrust initState cOver
  norm_num [Real.rpow_one]
  all_goals try field_simp
  all_goals try norm_num
  all_goals ring1

lemma runLoop_cOver : runLoop cOver =
    ⟨1, 2, 4 * Real.pi, [0], [2], [1 + 4 * Real.pi], [1 + 4 * Real.pi],
      some (1 + 4 * Real.pi), some (1 + 4 * Real.pi)⟩ := by
  have h0 : loopCond cOver (initState cOver) := by
    constructor <;> norm_num [initState, cOver]
  have h1 : ¬ loopCond cOver
      (⟨1, 2, 4 * Real.pi, [0], [2], [1 + 4 * Real.pi], [1 + 4 * Real.pi],
        some (1 + 4 * Real.pi), some (1 + 4 * Real.pi)⟩ : LoopState) := by
    intro hcond
    have h2 := hcond.2
    norm_num [cOver] at h2
  rw [runLoop, simFuel_cOver, show (5:ℕ) = 4 + 1 from rfl, loopN_succ, if_pos h0,
    stepOnce_cOver_0, loopN_of_not_cond _ _ _ h1]

/-- C10 -- every recorded port radius except possibly the last is strictly
below `maxPortRadius` (the guard checks the pre-update radius, the appended
value is post-update); and at `cOver` the last recorded value 2 does exceed
`maxPortRadius = 3/2`, so the final step can overshoot. -/
theorem port_radius_below_max_except_last (c : Constants) :
    (∀ x ∈ (runLoop c).port_radius_data.dropLast, x < c.maxPortRadius) ∧
    ((runLoop cOver).port_radius_data = [2] ∧ cOver.maxPortRadius < 2) := by
  refine ⟨?_, ?_, ?_⟩
  · exact (loopN_pr_below_max c (simFuel c) (initState c)
      (by simp [initState]) (Or.inl rfl)).1
  · rw [runLoop_cOver]
  · norm_num [cOver]

lemma calculate_regression_rate_eq (c : Constants) (r flux : ℝ) :
    calculate_regression_rate c r flux =
      c.regressionRateCoefficient * flux ^ c.oxidizerFluxExponent := by
  unfold calculate_regression_rate
  split <;> rfl

/-- The same configuration with `oxidizerMassFlowRate` doubled and every
other constant unchanged. -/
def doubleOx (c : Constants) : Constants :=
  { c with oxidizerMassFlowRate := 2 * c.oxidizerMassFlowRate }

lemma loopN_thrust_extend (c : Constants) (fuel : ℕ) : ∀ s : LoopState,
    ∃ t : List ℝ, (loopN c fuel s).thrust_data = s.thrust_data ++ t := by
  induction fuel with
  | zero => exact fun s => ⟨[], by simp [loopN_zero]⟩
  | succ n ih =>
    intro s
    rw [loopN_succ]
    split
    · obtain ⟨t, ht⟩ := ih (stepOnce c s)
      refine ⟨(loopBody c s).thrust :: t, ?_⟩
      rw [ht]
      show (s.thrust_data ++ [(loopBody c s).thrust]) ++ t = _
      simp
    · exact ⟨[], by simp⟩

lemma runLoop_thrust_head (c : Constants) (hdt : 0 < c.deltaT)
    (hdur : 0 < c.simulationDuration) (hmax : c.initialPortRadius < c.maxPortRadius) :
    (runLoop c).thrust_data.head? = some ((loopBody c (initState c)).thrust) := by
  have hfuel : 0 < simFuel c := Nat.ceil_pos.mpr (div_pos hdur hdt)
  obtain ⟨n, hn⟩ : ∃ n, simFuel c = n + 1 := ⟨simFuel c - 1, by omega⟩
  have hcond : loopCond c (initState c) := by
    constructor
    · exact hdur
    · exact hmax
  rw [runLoop, hn, loopN_succ, if_pos hcond]
  obtain ⟨t, ht⟩ := loopN_thrust_extend c n (stepOnce c (initState c))
  rw [ht]
  show (((initState c).thrust_data ++ [(loopBody c (initState c)).thrust]) ++ t).head? = _
  simp [initState]

lemma loopBody_thrust_init (c : Constants) :
    (loopBody c (initState c)).thrust =
      (c.oxidizerMassFlowRate +
        c.fuelDensity *
          (2 * Real.pi *
            (c.initialPortRadius +
              c.regressionRateCoefficient *
                (c.oxidizerMassFlowRate / (Real.pi * c.initialPortRadius ^ 2)) ^
                  c.oxidizerFluxExponent * c.deltaT) *
            c.grainLength) *
          (c.regressionRateCoefficient *
            (c.oxidizerMassFlowRate / (Real.pi * c.initialPortRadius ^ 2)) ^
              c.oxidizerFluxExponent)) *
        c.characteristicVelocity := by
  simp only [loopBody, calculate_thrust, calculate_fuel_flow_rate,
    calculate_regression_rate_eq, initState]

lemma thrust_mono_aux {ox cs d L r0 dt C F G : ℝ}
    (hox : 0 < ox) (hcs : 0 < cs) (hd : 0 ≤ d) (hL : 0 ≤ L) (hr0 : 0 ≤ r0)
    (hdt : 0 ≤ dt) (hC : 0 ≤ C) (hF : 0 ≤ F) (hFG : F ≤ G) :
    (ox + d * (2 * Real.pi * (r0 + C * F * dt) * L) * (C * F)) * cs <
      (2 * ox + d * (2 * Real.pi * (r0 + C * G * dt) * L) * (C * G)) * cs := by
  have h2π : (0:ℝ) ≤ 2 * Real.pi := by positivity
  have hCF : 0 ≤ C * F := mul_nonneg hC hF
  have hCG : 0 ≤ C * G := mul_nonneg hC (le_trans hF hFG)
  have hCFG : C * F ≤ C * G := mul_le_mul_of_nonneg_left hFG hC
  have hrad2 : 0 ≤ r0 + C * G * dt := add_nonneg hr0 (mul_nonneg hCG hdt)
  have hradle : r0 + C * F * dt ≤ r0 + C * G * dt :=
    add_le_add_left (mul_le_mul_of_nonneg_right hCFG hdt) r0
  have hfuel : d * (2 * Real.pi * (r0 + C * F * dt) * L) * (C * F) ≤
      d * (2 * Real.pi * (r0 + C * G * dt) * L) * (C * G) := by
    apply mul_le_mul
    · exact mul_le_mul_of_nonneg_left
        (mul_le_mul_of_nonneg_right (mul_le_mul_of_nonneg_left hradle h2π) hL) hd
    · exact hCFG
    · exact hCF
    · exact mul_nonneg hd (mul_nonneg (mul_nonneg h2π hrad2) hL)
  refine mul_lt_mul_of_pos_right ?_ hcs
  linarith

/-- C9 (amended) -- doubling the oxidizer mass flow rate (other constants
fixed, all valid) strictly increases the thrust recorded at the FIRST time
index of the run; at later matched indices the increase can fail (see the
counterexample theorem). -/
theorem double_ox_thrust_increases_first_index (c : Constants)
    (hc : 0 ≤ c.regressionRateCoefficient) (hox : 0 < c.oxidizerMassFlowRate)
    (hcs : 0 < c.characteristicVelocity) (hd : 0 ≤ c.fuelDensity)
    (hL : 0 ≤ c.grainLength) (hr0 : 0 ≤ c.initialPortRadius)
    (hexp : 0 ≤ c.oxidizerFluxExponent) (hdt : 0 < c.deltaT)
    (hdur : 0 < c.simulationDuration) (hmax : c.initialPortRadius < c.maxPortRadius) :
    ∃ a b, (runLoop (doubleOx c)).thrust_data.head? = some a ∧
      (runLoop c).thrust_data.head? = some b ∧ b < a := by
  refine ⟨_, _, runLoop_thrust_head (doubleOx c) hdt hdur hmax,
    runLoop_thrust_head c hdt hdur hmax, ?_⟩
  rw [loopBody_thrust_init c, loopBody_thrust_init (doubleOx c)]
  simp only [doubleOx]
  have hf : (0:ℝ) ≤ c.oxidizerMassFlowRate / (Real.pi * c.initialPortRadius ^ 2) :=
    oxidizer_flux_nonneg c hox.le _
  have hfg : c.oxidizerMassFlowRate / (Real.pi * c.initialPortRadius ^ 2) ≤
      2 * c.oxidizerMassFlowRate / (Real.pi * c.initialPortRadius ^ 2) := by
    rw [show 2 * c.oxidizerMassFlowRate / (Real.pi * c.initialPortRadius ^ 2) =
        2 * (c.oxidizerMassFlowRate / (Real.pi * c.initialPortRadius ^ 2)) by ring]
    linarith
  exact thrust_mono_aux hox hcs hd hL hr0 hdt.le hc (Real.rpow_nonneg hf _)
    (Real.rpow_le_rpow hf hfg hexp)

/-- Witness for the amended C9 at `cW2`. -/
theorem double_ox_thrust_increases_first_index_witness :
    ((0:ℝ) ≤ cW2.regressionRateCoefficient ∧ 0 < cW2.oxidizerMassFlowRate ∧
      0 < cW2.characteristicVelocity ∧ 0 ≤ cW2.fuelDensity ∧
      0 ≤ cW2.grainLength ∧ 0 ≤ cW2.initialPortRadius ∧
      0 ≤ cW2.oxidizerFluxExponent ∧ 0 < cW2.deltaT ∧
      0 < cW2.simulationDuration ∧ cW2.initialPortRadius < cW2.maxPortRadius) ∧
    ∃ a b, (runLoop (doubleOx cW2)).thrust_data.head? = some a ∧
      (runLoop cW2).thrust_data.head? = some b ∧ b < a :=
  ⟨by norm_num [cW2],
    double_ox_thrust_increases_first_index cW2 (by norm_num [cW2]) (by norm_num [cW2])
      (by norm_num [cW2]) (by norm_num [cW2]) (by norm_num [cW2]) (by norm_num [cW2])
      (by norm_num [cW2]) (by norm_num [cW2]) (by norm_num [cW2]) (by norm_num [cW2])⟩

/-- A valid configuration (all constants strictly positive,
`maxPortRadius > initialPortRadius`, `deltaT > 0`) at which doubling the
oxidizer mass flow rate DECREASES the thrust recorded at index 1: the
doubled run burns the port open so fast that its oxidizer flux, and with it
the fuel-flow contribution, collapses by the second step. -/
def cCE : Constants where
  regressionRateCoefficient := Real.pi ^ 2
  oxidizerFluxExponent := 2
  fuelDensity := 1 / (2 * Real.pi)
  grainLength := 20
  initialPortRadius := 1
  maxPortRadius := 1000
  oxidizerMassFlowRate := 1
  characteristicVelocity := 1
  throatArea := 1
  deltaT := 1
  simulationDuration := 2
  singularityThreshold := 1

lemma simFuel_cCE : simFuel cCE = 2 := by
  unfold simFuel cCE
  norm_num

lemma stepOnce_cCE_0 : stepOnce cCE (initState cCE) =
    ⟨1, 2, 40, [0], [2], [41], [41], some 41, some 41⟩ := by
  have hπ : Real.pi ≠ 0 := Real.pi_ne_zero
  unfold stepOnce loopBody calculate_regression_rate calculate_fuel_flow_rate
    calculate_chamber_pressure calculate_thrust initState cCE
  norm_num [Real.rpow_two]
  all_goals try field_simp
  all_goals repeat' apply And.intro
  all_goals first
  | ring1
  | norm_num

lemma stepOnce_cCE_1 :
    stepOnce cCE (⟨1, 2, 40, [0], [2], [41], [41], some 41, some 41⟩ : LoopState) =
    ⟨2, 33/16, 2725/64, [0, 1], [2, 33/16], [41, 229/64], [41, 229/64],
      some (229/64), some (229/64)⟩ := by
  have hπ : Real.pi ≠ 0 := Real.pi_ne_zero
  unfold stepOnce loopBody calculate_regression_rate calculate_fuel_flow_rate
    calculate_chamber_pressure calculate_thrust cCE
  norm_num [Real.rpow_two]
  all_goals try field_simp
  all_goals repeat' apply And.intro
  all_goals first
  | ring1
  | norm_num

lemma runLoop_cCE : runLoop cCE =
    ⟨2, 33/16, 2725/64, [0, 1], [2, 33/16], [41, 229/64], [41, 229/64],
      some (229/64), some (229/64)⟩ := by
  have h0 : loopCond cCE (initState cCE) := by
    constructor <;> norm_num [initState, cCE]
  have h1 : loopCond cCE (⟨1, 2, 40, [0], [2], [41], [41], some 41, some 41⟩ : LoopState) := by
    constructor <;> norm_num [cCE]
  rw [runLoop, simFuel_cCE, show (2:ℕ) = 1 + 1 from rfl, loopN_succ, if_pos h0,
    stepOnce_cCE_0, loopN_succ, if_pos h1, stepOnce_cCE_1, loopN_zero]

lemma simFuel_doubleOx_cCE : simFuel (doubleOx cCE) = 2 := by
  unfold simFuel doubleOx cCE
  norm_num

lemma stepOnce_cCE2_0 : stepOnce (doubleOx cCE) (initState (doubleOx cCE)) =
    ⟨1, 5, 400, [0], [5], [402], [402], some 402, some 402⟩ := by
  have hπ : Real.pi ≠ 0 := Real.pi_ne_zero
  unfold stepOnce loopBody calculate_regression_rate calculate_fuel_flow_rate
    calculate_chamber_pressure calculate_thrust initState doubleOx cCE
  norm_num [Real.rpow_two]
  all_goals try field_simp
  all_goals repeat' apply And.intro
  all_goals first
  | ring1
  | norm_num

lemma stepOnce_cCE2_1 :
    stepOnce (doubleOx cCE) (⟨1, 5, 400, [0], [5], [402], [402], some 402, some 402⟩ : LoopState) =
    ⟨2, 3129/625, 31300064/78125, [0, 1], [5, 3129/625], [402, 206314/78125],
      [402, 206314/78125], some (206314/78125), some (206314/78125)⟩ := by
  have hπ : Real.pi ≠ 0 := Real.pi_ne_zero
  unfold stepOnce loopBody calculate_regression_rate calculate_fuel_flow_rate
    calculate_chamber_pressure calculate_thrust doubleOx cCE
  norm_num [Real.rpow_two]
  all_goals try field_simp
  all_goals repeat' apply And.intro
  all_goals first
  | ring1
  | norm_num

lemma runLoop_cCE2 : runLoop (doubleOx cCE) =
    ⟨2, 3129/625, 31300064/78125, [0, 1], [5, 3129/625], [402, 206314/78125],
      [402, 206314/78125], some (206314/78125), some (206314/78125)⟩ := by
  have h0 : loopCond (doubleOx cCE) (initState (doubleOx cCE)) := by
    constructor <;> norm_num [initState, doubleOx, cCE]
  have h1 : loopCond (doubleOx cCE)
      (⟨1, 5, 400, [0], [5], [402], [402], some 402, some 402⟩ : LoopState) := by
    constructor <;> norm_num [doubleOx, cCE]
  rw [runLoop, simFuel_doubleOx_cCE, show (2:ℕ) = 1 + 1 from rfl, loopN_succ, if_pos h0,
    stepOnce_cCE2_0, loopN_succ, if_pos h1, stepOnce_cCE2_1, loopN_zero]

/-- C9 counterexample -- at the valid configuration `cCE`, both the base run
and the run with the oxidizer mass flow rate doubled record two thrust
entries, and at matched index 1 the doubled run's thrust `206314/78125`
(about 2.64) is SMALLER than the base run's `229/64` (about 3.58): doubling
the oxidizer flow does not increase thrust at every matched time index. -/
theorem double_ox_thrust_not_always_larger :
    (runLoop cCE).thrust_data = [41, 229/64] ∧
    (runLoop (doubleOx cCE)).thrust_data = [402, 206314/78125] ∧
    (206314/78125 : ℝ) < 229/64 := by
  refine ⟨?_, ?_, by norm_num⟩
  · rw [runLoop_cCE]
  · rw [runLoop_cCE2]

end
